import Mathlib

/-!
Verification of the directory-walker utility (`walker.py`).

The development shallowly embeds the program's pure logic in Lean:

* filesystem trees become an inductive type `FSEntry`, with per-node flags
  standing for the outcomes of the OS calls the program makes (`listable`
  for `iterdir`/`os.walk` listing, a `stat` field for `Path.stat`, and an
  optional byte list for the readable content of a file);
* Python exceptions become `Except`/`Option` values;
* the byte-level codecs used by `_read_file_with_fallback` are embedded as
  explicit encode/decode functions on lists of naturals (code points and
  bytes);
* the standard-library `mimetypes` extension table consulted by
  `_is_text_file` is embedded as an explicit finite table restricted to
  well-known, stable entries.

Function and constant names follow the source where Lean allows it.
-/

namespace Walker

/-- ASCII lowercasing of one character (`str.lower` on the alphabets the
program compares). -/
def lowerChar (c : Char) : Char :=
  if c.toNat ≥ 65 && c.toNat ≤ 90 then Char.ofNat (c.toNat + 32) else c

/-- `str.lower` on a string. -/
def strLower (s : String) : String := String.mk (s.data.map lowerChar)

/-- `str.startswith`. -/
def strStarts (s pre : String) : Bool := pre.data.isPrefixOf s.data

/-- Index of the last occurrence of a character in a list, if any
(Python `str.rfind`). -/
def lastIdxOf (c : Char) (cs : List Char) : Option Nat :=
  match (cs.reverse).findIdx? (· == c) with
  | some j => some (cs.length - 1 - j)
  | none => none

/-- `pathlib.PurePath.suffix` on a final path component: the substring from
the last dot on, provided that dot is neither the first nor the last
character of the name; empty otherwise. -/
def pathSuffix (name : String) : String :=
  let cs := name.data
  match lastIdxOf '.' cs with
  | some i => if 0 < i && i + 1 < cs.length then String.mk (cs.drop i) else ""
  | none => ""

/-- Subset of the Python standard library `mimetypes` extension-to-MIME
table (the environment of `_is_text_file`), restricted to stable,
well-known entries for the extensions this development mentions. -/
def types_map : List (String × String) :=
  [(".txt", "text/plain"), (".bat", "text/plain"), (".c", "text/plain"),
   (".h", "text/plain"), (".ksh", "text/plain"), (".pl", "text/plain"),
   (".html", "text/html"), (".htm", "text/html"), (".css", "text/css"),
   (".csv", "text/csv"), (".xml", "text/xml"), (".py", "text/x-python"),
   (".js", "text/javascript"),
   (".json", "application/json"), (".sh", "application/x-sh"),
   (".png", "image/png"), (".jpg", "image/jpeg"), (".jpeg", "image/jpeg"),
   (".gif", "image/gif"), (".bmp", "image/bmp"), (".pdf", "application/pdf"),
   (".zip", "application/zip"), (".mp3", "audio/mpeg"), (".mp4", "video/mp4"),
   (".doc", "application/msword"), (".xls", "application/vnd.ms-excel"),
   (".ico", "image/vnd.microsoft.icon"), (".svg", "image/svg+xml"),
   (".avi", "video/x-msvideo"), (".tar", "application/x-tar")]

/-- `mimetypes.guess_type` on a file name: look the lowercased extension up
in the table. -/
def guess_type (name : String) : Option String :=
  (types_map.find? (fun p => p.1 == strLower (pathSuffix name))).map Prod.snd

/-- The fixed allow-list of source/text/config extensions from
`_is_text_file` (walker.py line 185), verbatim. -/
def text_exts : List String :=
  [".txt", ".md", ".py", ".js", ".html", ".css", ".json", ".xml", ".yaml",
   ".yml", ".csv", ".sh", ".bash", ".zsh", ".fish", ".ps1", ".bat", ".cmd",
   ".make", ".cmake", ".toml", ".ini", ".cfg", ".conf", ".env", ".lock",
   ".sum", ".go", ".rs", ".java", ".c", ".cpp", ".h", ".hpp", ".cs", ".php",
   ".rb", ".pl", ".lua", ".swift", ".kt", ".scala", ".clj", ".hs", ".ml",
   ".fs", ".elm", ".dart", ".ex", ".exs", ".vb", ".fs", ".nim", ".cr"]

/-- `_is_text_file` (walker.py lines 168-186): if a MIME type is guessed,
the verdict is whether it starts with `text/`; otherwise extensionless
files are text, and otherwise the lowercased extension is checked against
the allow-list. -/
def is_text_file (name : String) : Bool :=
  match guess_type name with
  | some mime_type => strStarts mime_type "text/"
  | none =>
    if pathSuffix name == "" then true
    else text_exts.contains (strLower (pathSuffix name))

/-- Claim-side classifier, following the words of C1: text iff the guessed
MIME type is in the `text` category, or the file has no extension, or the
extension is allow-listed. -/
def is_text_file_claim (name : String) : Bool :=
  (match guess_type name with
   | some m => strStarts m "text/"
   | none => false)
  || pathSuffix name == ""
  || text_exts.contains (strLower (pathSuffix name))

/-! Byte-level codecs backing `_read_file_with_fallback`.  Texts are lists
of Unicode code points, byte strings are lists of naturals below 256. -/

/-- A Unicode scalar value: what a Python `str` character can be encoded
from under strict error handling. -/
def validChar (c : Nat) : Prop := c ≤ 0x10FFFF ∧ ¬(0xD800 ≤ c ∧ c ≤ 0xDFFF)

instance (c : Nat) : Decidable (validChar c) := by unfold validChar; infer_instance

/-- All characters of the text are Unicode scalar values. -/
def validText (t : List Nat) : Prop := ∀ c ∈ t, validChar c

instance (t : List Nat) : Decidable (validText t) := by
  unfold validText; infer_instance

/-- Encode a text by concatenating the per-character encodings, failing if
any character fails. -/
def encodeAll (f : Nat → Option (List Nat)) : List Nat → Option (List Nat)
  | [] => some []
  | c :: t => do
    let bs ← f c
    let rest ← encodeAll f t
    pure (bs ++ rest)

/-- Strict UTF-8 encoding of one scalar value. -/
def utf8_encodeChar (c : Nat) : Option (List Nat) :=
  if c < 0x80 then some [c]
  else if c < 0x800 then some [0xC0 + c / 64, 0x80 + c % 64]
  else if c < 0x10000 then
    if 0xD800 ≤ c ∧ c ≤ 0xDFFF then none
    else some [0xE0 + c / 4096, 0x80 + c / 64 % 64, 0x80 + c % 64]
  else if c ≤ 0x10FFFF then
    some [0xF0 + c / 262144, 0x80 + c / 4096 % 64, 0x80 + c / 64 % 64,
          0x80 + c % 64]
  else none

def utf8_encode : List Nat → Option (List Nat) := encodeAll utf8_encodeChar

/-- A UTF-8 continuation byte. -/
def isCont (b : Nat) : Bool := 0x80 ≤ b && b < 0xC0

/-! Strict UTF-8 decoding of a whole byte string (CPython's `utf-8` codec
under `errors='strict'`): rejects stray continuation bytes, overlong
forms, surrogates, values above `0x10FFFF` and truncated sequences.  The
continuation-byte handling of the two-, three- and four-byte forms is
split into the `utf8_tail` helpers. -/
mutual

/-- Dispatch on the lead byte. -/
def utf8_decode : List Nat → Option (List Nat)
  | [] => some []
  | b :: bs =>
    if b < 0x80 then (utf8_decode bs).map (b :: ·)
    else if b < 0xC2 then none
    else if b < 0xE0 then utf8_tail2 b bs
    else if b < 0xF0 then utf8_tail3 b bs
    else if b < 0xF5 then utf8_tail4 b bs
    else none

def utf8_tail2 (b : Nat) : List Nat → Option (List Nat)
  | b1 :: rest =>
    if isCont b1 then
      (utf8_decode rest).map (((b - 0xC0) * 64 + (b1 - 0x80)) :: ·)
    else none
  | [] => none

def utf8_tail3 (b : Nat) : List Nat → Option (List Nat)
  | b1 :: b2 :: rest =>
    if isCont b1 && isCont b2 then
      let c := (b - 0xE0) * 4096 + (b1 - 0x80) * 64 + (b2 - 0x80)
      if c < 0x800 || (0xD800 ≤ c && c ≤ 0xDFFF) then none
      else (utf8_decode rest).map (c :: ·)
    else none
  | _ => none

def utf8_tail4 (b : Nat) : List Nat → Option (List Nat)
  | b1 :: b2 :: b3 :: rest =>
    if isCont b1 && isCont b2 && isCont b3 then
      let c := (b - 0xF0) * 262144 + (b1 - 0x80) * 4096 +
               (b2 - 0x80) * 64 + (b3 - 0x80)
      if c < 0x10000 || 0x10FFFF < c then none
      else (utf8_decode rest).map (c :: ·)
    else none
  | _ => none

end

/-- UTF-16 little-endian code units of one scalar value (surrogate pair
above the BMP), as bytes. -/
def utf16_encodeChar (c : Nat) : Option (List Nat) :=
  if c < 0x10000 then
    if 0xD800 ≤ c ∧ c ≤ 0xDFFF then none
    else some [c % 256, c / 256]
  else if c ≤ 0x10FFFF then
    let v := c - 0x10000
    let hi := 0xD800 + v / 1024
    let lo := 0xDC00 + v % 1024
    some [hi % 256, hi / 256, lo % 256, lo / 256]
  else none

/-- CPython's `utf-16` encoder on a little-endian host: a BOM followed by
little-endian code units. -/
def utf16_encode (t : List Nat) : Option (List Nat) :=
  (encodeAll utf16_encodeChar t).map (fun bs => 0xFF :: 0xFE :: bs)

/-- Group bytes into little-endian 16-bit units; odd length is a decode
error. -/
def utf16_unitsLE : List Nat → Option (List Nat)
  | [] => some []
  | [_] => none
  | b0 :: b1 :: bs => (utf16_unitsLE bs).map ((b0 + 256 * b1) :: ·)

/-- Group bytes into big-endian 16-bit units. -/
def utf16_unitsBE : List Nat → Option (List Nat)
  | [] => some []
  | [_] => none
  | b0 :: b1 :: bs => (utf16_unitsBE bs).map ((256 * b0 + b1) :: ·)

/-! Combine 16-bit units into scalar values, pairing surrogates; lone
surrogates are decode errors.  The low-surrogate lookahead is split into
`utf16_pair`. -/
mutual

def utf16_combine : List Nat → Option (List Nat)
  | [] => some []
  | u :: us =>
    if u < 0xD800 || 0xE000 ≤ u then (utf16_combine us).map (u :: ·)
    else if u < 0xDC00 then utf16_pair u us
    else none

def utf16_pair (u : Nat) : List Nat → Option (List Nat)
  | u2 :: rest =>
    if 0xDC00 ≤ u2 && u2 < 0xE000 then
      (utf16_combine rest).map
        ((0x10000 + (u - 0xD800) * 1024 + (u2 - 0xDC00)) :: ·)
    else none
  | [] => none

end

/-- Little-endian unit grouping followed by surrogate combination: the
body decoding of the `utf-16` codec once the byte order is settled. -/
def utf16_body_decode (bs : List Nat) : Option (List Nat) :=
  (utf16_unitsLE bs).bind utf16_combine

/-- CPython's `utf-16` decoder: honour a leading BOM, defaulting to the
little-endian (host) order when none is present. -/
def utf16_decode (bs : List Nat) : Option (List Nat) :=
  match bs with
  | 255 :: 254 :: rest => utf16_body_decode rest
  | 254 :: 255 :: rest => (utf16_unitsBE rest).bind utf16_combine
  | _ => utf16_body_decode bs

def latin1_encodeChar (c : Nat) : Option (List Nat) :=
  if c < 256 then some [c] else none

def latin1_encode : List Nat → Option (List Nat) := encodeAll latin1_encodeChar

/-- `latin-1` decodes every byte to the code point of the same value. -/
def latin1_decode (bs : List Nat) : Option (List Nat) := some bs

/-- The 27 positions of the `cp1252` page that differ from `latin-1`
(byte, code point); the bytes 0x81, 0x8D, 0x8F, 0x90 and 0x9D are
undefined in `cp1252`. -/
def cp1252_table : List (Nat × Nat) :=
  [(0x80, 0x20AC), (0x82, 0x201A), (0x83, 0x0192), (0x84, 0x201E),
   (0x85, 0x2026), (0x86, 0x2020), (0x87, 0x2021), (0x88, 0x02C6),
   (0x89, 0x2030), (0x8A, 0x0160), (0x8B, 0x2039), (0x8C, 0x0152),
   (0x8E, 0x017D), (0x91, 0x2018), (0x92, 0x2019), (0x93, 0x201C),
   (0x94, 0x201D), (0x95, 0x2022), (0x96, 0x2013), (0x97, 0x2014),
   (0x98, 0x02DC), (0x99, 0x2122), (0x9A, 0x0161), (0x9B, 0x203A),
   (0x9C, 0x0153), (0x9E, 0x017E), (0x9F, 0x0178)]

def cp1252_decodeByte (b : Nat) : Option Nat :=
  if b < 0x80 || (0xA0 ≤ b && b < 0x100) then some b
  else (cp1252_table.find? (fun p => p.1 == b)).map Prod.snd

def cp1252_decode : List Nat → Option (List Nat)
  | [] => some []
  | b :: bs => do
    let c ← cp1252_decodeByte b
    let rest ← cp1252_decode bs
    pure (c :: rest)

def cp1252_encodeChar (c : Nat) : Option (List Nat) :=
  if c < 0x80 || (0xA0 ≤ c && c < 0x100) then some [c]
  else (cp1252_table.find? (fun p => p.2 == c)).map (fun p => [p.1])

def cp1252_encode : List Nat → Option (List Nat) := encodeAll cp1252_encodeChar

/-- Universal-newline translation performed by text-mode `open(.., 'r')`:
`\r\n` and lone `\r` both become `\n`. -/
def normalizeNewlines : List Nat → List Nat
  | [] => []
  | 13 :: 10 :: rest => 10 :: normalizeNewlines rest
  | 13 :: rest => 10 :: normalizeNewlines rest
  | c :: rest => c :: normalizeNewlines rest

/-- The four codecs named in the default fallback chain. -/
inductive Enc where
  | utf8
  | utf16
  | latin1
  | cp1252
deriving DecidableEq

def decodeWith : Enc → List Nat → Option (List Nat)
  | .utf8 => utf8_decode
  | .utf16 => utf16_decode
  | .latin1 => latin1_decode
  | .cp1252 => cp1252_decode

def encodeWith : Enc → List Nat → Option (List Nat)
  | .utf8 => utf8_encode
  | .utf16 => utf16_encode
  | .latin1 => latin1_encode
  | .cp1252 => cp1252_encode

/-- The default fallback chain of `_read_file_with_fallback`
(walker.py line 155). -/
def defaultEncodings : List Enc := [.utf8, .utf16, .latin1, .cp1252]

/-- The loop of `_read_file_with_fallback`: try each encoding in order on
the file's bytes; a decode error moves on to the next encoding, success
returns the decoded (newline-translated) text, and an exhausted chain
returns the failure sentinel. -/
def tryEncodings (encs : List Enc) (bs : List Nat) : Option (List Nat) :=
  match encs with
  | [] => none
  | e :: rest =>
    match decodeWith e bs with
    | some t => some (normalizeNewlines t)
    | none => tryEncodings rest bs

/-- `_read_file_with_fallback` (walker.py lines 143-165).  The file is
modelled by its readable content: `none` stands for a non-decode I/O
failure (the broad `except` clause), which aborts with the sentinel. -/
def read_file_with_fallback (encs : List Enc) (content : Option (List Nat)) :
    Option (List Nat) :=
  match content with
  | none => none
  | some bs => tryEncodings encs bs

/-! The filesystem model and the tree builder `_build_tree`. -/

/-- A filesystem entry.  `stat` is the size `Path.stat().st_size` would
report, `none` when the call would raise; `content` is the readable byte
content, `none` when opening/reading the file raises a non-decode error;
`listable` is whether listing the directory succeeds (`false` when
`iterdir`/`os.walk` would hit `PermissionError`). -/
inductive FSEntry where
  | file (name : String) (stat : Option Nat) (content : Option (List Nat))
  | dir (name : String) (listable : Bool) (children : List FSEntry)

def FSEntry.name : FSEntry → String
  | .file n _ _ => n
  | .dir n _ _ => n

def FSEntry.isDir : FSEntry → Bool
  | .dir .. => true
  | .file .. => false

def FSEntry.isFile : FSEntry → Bool
  | .file .. => true
  | .dir .. => false

def FSEntry.stat : FSEntry → Option Nat
  | .file _ st _ => st
  | .dir .. => none

/-- Ordinal (code-point lexicographic) comparison of character lists:
Python's `<=` on strings. -/
def charListLe : List Char → List Char → Bool
  | [], _ => true
  | _ :: _, [] => false
  | a :: as, b :: bs =>
    if a < b then true else if b < a then false else charListLe as bs

/-- Python's ordinal `<=` on strings. -/
def strLe (a b : String) : Bool := charListLe a.data b.data

/-- Ordering used by `sorted(...)` on same-directory `Path` objects:
ordinal comparison, which for siblings reduces to the entry name. -/
def entryLe (a b : FSEntry) : Prop := strLe a.name b.name = true

instance : DecidableRel entryLe := fun a b => by unfold entryLe; infer_instance

/-- Corner glyph for an entry line (walker.py lines 45, 82). -/
def glyph (isLast : Bool) : String := if isLast then "└── " else "├── "

/-- Padding appended to the running indent for the next level
(walker.py line 65). -/
def childPad (isLast : Bool) : String := if isLast then "    " else "│   "

/-- Python truthiness of the `skip_dirs` argument: `None` and the empty
set are falsy (walker.py line 55). -/
def skipActive (skipDirs : Option (List String)) : Bool :=
  match skipDirs with
  | none => false
  | some l => !l.isEmpty

/-- The hidden-entry filter (walker.py lines 56, 60): keep an entry when
hidden entries are shown or its name does not start with a dot. -/
def hiddenKeep (showHidden : Bool) (c : FSEntry) : Bool :=
  showHidden || !(strStarts c.name ".")

/-- Children surviving the hidden filter. -/
def visChildren (showHidden : Bool) (ch : List FSEntry) : List FSEntry :=
  ch.filter (hiddenKeep showHidden)

/-- Selection of subdirectories (walker.py lines 57, 61): directories, and
when a skip set is active, directories whose name is not in it. -/
def dirSelect (skipDirs : Option (List String)) (c : FSEntry) : Bool :=
  c.isDir && (!skipActive skipDirs || !((skipDirs.getD []).contains c.name))

/-- The sorted subdirectory list of one node. -/
def sortedDirs (showHidden : Bool) (skipDirs : Option (List String))
    (ch : List FSEntry) : List FSEntry :=
  List.insertionSort entryLe ((visChildren showHidden ch).filter (dirSelect skipDirs))

/-- The sorted file list of one node. -/
def sortedFiles (showHidden : Bool) (ch : List FSEntry) : List FSEntry :=
  List.insertionSort entryLe ((visChildren showHidden ch).filter FSEntry.isFile)

/-- Tag the last element of a list, for the `i == len(...) - 1` tests of
the enumeration loops. -/
def markLast : List α → List (α × Bool)
  | [] => []
  | [a] => [(a, true)]
  | a :: b :: rest => (a, false) :: markLast (b :: rest)

/-- Size annotation of a file line (walker.py lines 84-90). -/
def sizeNote (showSizes : Bool) (st : Option Nat) : String :=
  if showSizes then
    match st with
    | some s => " (" ++ toString s ++ " bytes)"
    | none => " (size unknown)"
  else ""

/-- `_build_tree` (walker.py lines 22-93).  Returns the emitted lines
paired with the permission warnings recorded along the way.  The source
is only ever called on directories (the generators check `is_dir` and the
recursion only descends into directories); the `file` case is the
unreachable artifact of totality and mirrors the node's own line. -/
def buildTree (e : FSEntry) (pfx : String) (isLast : Bool)
    (showHidden showSizes : Bool) (skipDirs : Option (List String)) :
    List String × List String :=
  match e with
  | .file n _ _ => ([pfx ++ glyph isLast ++ n ++ "/"], [])
  | .dir n listable ch =>
    let line := pfx ++ glyph isLast ++ n ++ "/"
    if !listable then ([line], ["Permission denied: " ++ n])
    else
      let subPfx := pfx ++ childPad isLast
      let dirs := sortedDirs showHidden skipDirs ch
      let files := sortedFiles showHidden ch
      let recs := (markLast dirs).attach.map
        (fun p => buildTree p.1.1 subPfx (p.1.2 && files.isEmpty)
          showHidden showSizes skipDirs)
      let fileLines := (markLast files).map
        (fun q => subPfx ++ glyph q.2 ++ q.1.name ++ sizeNote showSizes q.1.stat)
      (line :: ((recs.map Prod.fst).flatten ++ fileLines),
       (recs.map Prod.snd).flatten)
termination_by sizeOf e
decreasing_by
  have memML : ∀ (l : List FSEntry) (q : FSEntry × Bool), q ∈ markLast l → q.1 ∈ l := by
    intro l
    induction l with
    | nil => intro q hq; simp [markLast] at hq
    | cons a rest ih =>
      intro q hq
      cases rest with
      | nil =>
        simp [markLast] at hq
        simp [hq]
      | cons b rest2 =>
        rw [markLast] at hq
        rcases List.mem_cons.mp hq with h | h
        · simp [h]
        · exact List.mem_cons_of_mem a (ih q h)
  have h1 := memML _ _ p.2
  have h2 := ((List.perm_insertionSort _ _).mem_iff).mp h1
  have h3 := List.mem_of_mem_filter (List.mem_of_mem_filter h2)
  have h4 := List.sizeOf_lt_of_mem h3
  simp only [FSEntry.dir.sizeOf_spec]
  omega

/-- `generate_tree` (walker.py lines 96-140): the root argument is `none`
when `directory_path` does not resolve to a directory, `outOpenable` is
whether opening the output file for writing succeeds; the result couples
the boolean return value with the document written. -/
def generate_tree (root : Option FSEntry) (outOpenable : Bool)
    (showHidden showSizes : Bool) (now src : String) : Bool × String :=
  match root with
  | none => (false, "")
  | some e =>
    if !outOpenable then (false, "")
    else
      (true,
       "# Directory Tree Report\n\n" ++ "Generated on: " ++ now ++ "\n" ++
       "Source directory: `" ++ src ++ "`\n\n" ++ "```\n" ++
       String.intercalate "\n" (buildTree e "" true showHidden showSizes none).1 ++
       "\n```\n\n# End of Directory Tree Report\n")

mutual

/-- Number of filesystem entries observed by the traversal from a node,
the node itself included: entries hidden (when not shown), directories
whose name is skip-listed, and everything below an unlistable directory
are not observed. -/
def visibleEntryCount (showHidden : Bool) (skipDirs : Option (List String)) :
    FSEntry → Nat
  | .file _ _ _ => 1
  | .dir _ listable ch =>
    1 + (if !listable then 0 else visibleListCount showHidden skipDirs ch)

/-- Observed-entry count of a child list. -/
def visibleListCount (showHidden : Bool) (skipDirs : Option (List String)) :
    List FSEntry → Nat
  | [] => 0
  | c :: rest =>
    (if hiddenKeep showHidden c then
       match c with
       | .file _ _ _ => 1
       | .dir n l ch =>
         if dirSelect skipDirs (.dir n l ch) then
           visibleEntryCount showHidden skipDirs (.dir n l ch)
         else 0
     else 0) + visibleListCount showHidden skipDirs rest

end

/-! The file combiner `combine_files` and the filter constants. -/

/-- `SKIP_DIRS` (walker.py line 12). -/
def SKIP_DIRS : List String :=
  [".git", "node_modules", "__pycache__", ".next", ".nuxt", "dist", "build",
   "venv", ".venv", "docs"]

/-- `SKIP_EXTENSIONS` (walker.py lines 13-18). -/
def SKIP_EXTENSIONS : List String :=
  [".jpg", ".jpeg", ".png", ".gif", ".bmp", ".tiff", ".ico", ".svg",
   ".exe", ".dll", ".so", ".dylib", ".bin", ".dat", ".db", ".sqlite",
   ".sqlite3", ".zip", ".tar", ".gz", ".bz2", ".rar", ".7z",
   ".mp3", ".mp4", ".avi", ".mkv", ".flv", ".wmv", ".mov", ".webm",
   ".pdf", ".doc", ".docx", ".xls", ".xlsx", ".ppt", ".pptx",
   ".pyc", ".class", ".jar", ".war", ".ear"]

/-- `SKIP_FILES` (walker.py line 19). -/
def SKIP_FILES : List String := ["tailwind.css", "uv.lock"]

/-- Exclude-set construction in `main` (walker.py lines 382-384): the
defaults united with the user-supplied extensions, each given a leading
dot when missing.  The additions are not lowercased. -/
def buildExcludeSet (user : List String) : List String :=
  SKIP_EXTENSIONS ++ user.map (fun e => if strStarts e "." then e else "." ++ e)

/-- Substring containment of `pat` in a character list (Python `in`). -/
def listContainsSub (pat : List Char) : List Char → Bool
  | [] => pat.isEmpty
  | c :: rest => pat.isPrefixOf (c :: rest) || listContainsSub pat rest

/-- Python's `sub in s` on strings. -/
def containsSub (s sub : String) : Bool := listContainsSub sub.data s.data

/-- Final component of a relative path string (`PurePath.name`). -/
def relName (s : String) : String :=
  match lastIdxOf '/' s.data with
  | some i => String.mk (s.data.drop (i + 1))
  | none => s

/-- Join relative-path parts with `/` (`str(PurePath)` of the parts). -/
def relJoin : List String → String
  | [] => ""
  | [p] => p
  | p :: q :: rest => p ++ "/" ++ relJoin (q :: rest)

/-- Hidden-path exclusion for the combiner (walker.py line 230): with
hidden files not shown, drop a file whose name starts with a dot or that
sits below a dot-named directory. -/
def hiddenExcluded (showHidden : Bool) (relParts : List String) (n : String) : Bool :=
  !showHidden && (strStarts n "." || relParts.any (fun p => strStarts p "."))

/-- Extension exclusion (walker.py line 234): the lowercased suffix is
looked up in the exclude set verbatim. -/
def excludedByExt (excl : List String) (n : String) : Bool :=
  excl.contains (strLower (pathSuffix n))

/-- Claim-side matcher of C5: the suffix matches some member of the
exclude set case-insensitively. -/
def extMatchesCI (excl : List String) (n : String) : Bool :=
  excl.any (fun m => strLower m == strLower (pathSuffix n))

/-- Python truthiness of `max_size` (walker.py line 240): `None` and `0`
disable the size check. -/
def maxSizeActive : Option Nat → Bool
  | none => false
  | some m => m != 0

/-- The per-file inclusion filter of the collection loop (walker.py lines
230-244), checks in source order; `Path.stat` raising at the max-size
check is an uncaught exception, hence `error`. -/
def fileVerdict (excl : List String) (maxSize : Option Nat) (showHidden : Bool)
    (relParts : List String) (n : String) (st : Option Nat) : Except String Bool :=
  if hiddenExcluded showHidden relParts n then .ok false
  else if SKIP_FILES.contains n then .ok false
  else if excludedByExt excl n then .ok false
  else if containsSub n ".min." then .ok false
  else if maxSizeActive maxSize then
    match st with
    | none => .error ("stat failed: " ++ relJoin (relParts ++ [n]))
    | some sz =>
      if sz > maxSize.getD 0 then .ok false
      else .ok (is_text_file n)
  else .ok (is_text_file n)

/-- A collected file: its relative path and its readable content. -/
abbrev FileRec := String × Option (List Nat)

mutual

/-- The collection phase of `combine_files` (walker.py lines 223-245):
`os.walk` visits a directory top-down, yielding the directory's files
first and then recursing into the subdirectories that survive the
`SKIP_DIRS` pruning; a directory whose listing fails yields nothing.
An exception from `fileVerdict` aborts the whole phase. -/
def walkCollect (excl : List String) (maxSize : Option Nat) (showHidden : Bool)
    (relParts : List String) : FSEntry → Except String (List FileRec)
  | .file _ _ _ => .ok []
  | .dir _ listable ch =>
    if !listable then .ok []
    else do
      let here ← collectHere excl maxSize showHidden relParts ch
      let deeper ← walkChildren excl maxSize showHidden relParts ch
      .ok (here ++ deeper)

/-- File loop of one `os.walk` tuple (walker.py lines 228-245). -/
def collectHere (excl : List String) (maxSize : Option Nat) (showHidden : Bool)
    (relParts : List String) : List FSEntry → Except String (List FileRec)
  | [] => .ok []
  | .dir _ _ _ :: rest => collectHere excl maxSize showHidden relParts rest
  | .file n st content :: rest => do
    let keep ← fileVerdict excl maxSize showHidden relParts n st
    let others ← collectHere excl maxSize showHidden relParts rest
    .ok (if keep then (relJoin (relParts ++ [n]), content) :: others else others)

/-- Recursion of `os.walk` into the subdirectories surviving the
`SKIP_DIRS` pruning (walker.py line 227), in enumeration order. -/
def walkChildren (excl : List String) (maxSize : Option Nat) (showHidden : Bool)
    (relParts : List String) : List FSEntry → Except String (List FileRec)
  | [] => .ok []
  | .file _ _ _ :: rest => walkChildren excl maxSize showHidden relParts rest
  | .dir dn l ch2 :: rest =>
    if SKIP_DIRS.contains dn then walkChildren excl maxSize showHidden relParts rest
    else do
      let xs ← walkCollect excl maxSize showHidden (relParts ++ [dn]) (.dir dn l ch2)
      let ys ← walkChildren excl maxSize showHidden relParts rest
      .ok (xs ++ ys)

end

/-- Total variant of `fileVerdict` used by the multiset abstraction: the
case in which the source raises is mapped to exclusion (it never occurs
on a run on which the collection phase succeeds). -/
def fileKeepM (excl : List String) (maxSize : Option Nat) (showHidden : Bool)
    (relParts : List String) (n : String) (st : Option Nat) : Bool :=
  match fileVerdict excl maxSize showHidden relParts n st with
  | .ok b => b
  | .error _ => false

mutual

/-- Order-insensitive abstraction of the collection phase: the multiset
of collected file records. -/
def collectM (excl : List String) (maxSize : Option Nat) (showHidden : Bool)
    (relParts : List String) : FSEntry → Multiset FileRec
  | .file _ _ _ => 0
  | .dir _ listable ch =>
    if !listable then 0
    else hereM excl maxSize showHidden relParts ch +
         childrenM excl maxSize showHidden relParts ch

def hereM (excl : List String) (maxSize : Option Nat) (showHidden : Bool)
    (relParts : List String) : List FSEntry → Multiset FileRec
  | [] => 0
  | .dir _ _ _ :: rest => hereM excl maxSize showHidden relParts rest
  | .file n st content :: rest =>
    (if fileKeepM excl maxSize showHidden relParts n st
     then {(relJoin (relParts ++ [n]), content)} else 0) +
    hereM excl maxSize showHidden relParts rest

def childrenM (excl : List String) (maxSize : Option Nat) (showHidden : Bool)
    (relParts : List String) : List FSEntry → Multiset FileRec
  | [] => 0
  | .file _ _ _ :: rest => childrenM excl maxSize showHidden relParts rest
  | .dir dn l ch2 :: rest =>
    (if SKIP_DIRS.contains dn then 0
     else collectM excl maxSize showHidden (relParts ++ [dn]) (.dir dn l ch2)) +
    childrenM excl maxSize showHidden relParts rest

end

/-- Ordering used by `all_files.sort()`: ordinal comparison of the
relative path strings. -/
def recLe (a b : FileRec) : Prop := strLe a.1 b.1 = true

instance : DecidableRel recLe := fun a b => by unfold recLe; infer_instance

/-- `all_files.sort()` (walker.py line 248). -/
def sortRecs (l : List FileRec) : List FileRec := List.insertionSort recLe l

/-- Code points back to a Lean string (decode results are scalar values). -/
def strOfCps (l : List Nat) : String := String.mk (l.map Char.ofNat)

/-- Fence language tag (walker.py lines 286-287): the extension of the
path's final component without its dot, or `text`. -/
def langTag (rel : String) : String :=
  let ext := String.mk ((pathSuffix (relName rel)).data.drop 1)
  if ext == "" then "text" else ext

/-- One iteration of the rendering loop (walker.py lines 267-292):
nothing is emitted when the file resolves to the output file itself;
otherwise a heading, then either the fenced content with a separator
after every non-final index, or the unreadable-file placeholder. -/
def renderSection (total : Nat) (rootAbs outAbs : String)
    (p : Nat × FileRec) : String :=
  let rel := p.2.1
  if rootAbs ++ "/" ++ rel == outAbs then ""
  else
    "## " ++ rel ++ "\n\n" ++
    (match read_file_with_fallback defaultEncodings p.2.2 with
     | some text =>
       "```" ++ langTag rel ++ "\n" ++ strOfCps text ++ "\n```\n\n" ++
       (if p.1 < total - 1 then "---\n\n" else "")
     | none => "*[Unreadable file]*\n\n")

/-- The combined document (walker.py lines 250-294): header, embedded
directory tree (always pruned by the fixed `SKIP_DIRS`), then the file
sections over the sorted list. -/
def combineDoc (e : FSEntry) (showHidden : Bool) (now src rootAbs outAbs : String)
    (files : List FileRec) : String :=
  let sorted := sortRecs files
  "# Combined Files Report\n\n" ++ "Generated on: " ++ now ++ "\n" ++
  "Source directory: `" ++ src ++ "`\n\n" ++
  "Total files processed: " ++ toString files.length ++ "\n\n" ++
  "## Directory Tree\n\n" ++ "```\n" ++
  String.intercalate "\n" (buildTree e "" true showHidden false (some SKIP_DIRS)).1 ++
  "\n```\n\n" ++
  String.join (sorted.enum.map (renderSection sorted.length rootAbs outAbs)) ++
  "# End of Combined Files Report\n"

/-- `combine_files` (walker.py lines 189-301).  `root` is `none` when
`directory_path` is not a valid directory; `outOpenable` is whether the
output file opens for writing; `exclude_patterns` as a list covers the
`None`-to-empty-set defaulting of line 219.  `include_toc` and
`show_sizes` are accepted exactly as in the source signature.  The result
couples the boolean return value with the document written (empty when
the run fails before writing). -/
def combine_files (root : Option FSEntry) (outOpenable : Bool)
    (exclude_patterns : List String) (max_size : Option Nat)
    (show_hidden include_toc show_sizes : Bool)
    (now src rootAbs outAbs : String) : Bool × String :=
  match root with
  | none => (false, "")
  | some e =>
    match walkCollect exclude_patterns max_size show_hidden [] e with
    | .error _ => (false, "")
    | .ok files =>
      if !outOpenable then (false, "")
      else (true, combineDoc e show_hidden now src rootAbs outAbs files)

/-- Relative paths of the per-file sections in emission order: the sorted
collection, minus the entries the loop skips as the output file itself. -/
def docSectionPaths (rootAbs outAbs : String) (files : List FileRec) : List String :=
  ((sortRecs files).filter (fun r => !(rootAbs ++ "/" ++ r.1 == outAbs))).map Prod.fst

mutual

/-- Every file node of the tree reports a size from `Path.stat`. -/
def statsOk : FSEntry → Bool
  | .file _ st _ => st.isSome
  | .dir _ _ ch => statsOkList ch

def statsOkList : List FSEntry → Bool
  | [] => true
  | c :: rest => statsOk c && statsOkList rest

end

/-- Claim-side sibling ordering of C7: directories come before files, and
within each of the two groups names ascend in ordinal order. -/
def sibOrder (a b : FSEntry) : Prop :=
  (a.isDir = true ∧ b.isFile = true) ∨
  (a.isDir = true ∧ b.isDir = true ∧ strLe a.name b.name = true) ∨
  (a.isFile = true ∧ b.isFile = true ∧ strLe a.name b.name = true)

/-! Helper lemmas. -/

theorem markLast_fst {α : Type u} : ∀ (l : List α), (markLast l).map Prod.fst = l
  | [] => rfl
  | [_] => rfl
  | _ :: b :: rest => by
    simpa [markLast] using markLast_fst (b :: rest)

theorem mem_markLast {α : Type u} {p : α × Bool} {l : List α}
    (h : p ∈ markLast l) : p.1 ∈ l := by
  have := congrArg (p.1 ∈ ·) (markLast_fst l)
  simp only [eq_iff_iff] at this
  exact this.mp (List.mem_map_of_mem Prod.fst h)

theorem markLast_length {α : Type u} (l : List α) : (markLast l).length = l.length := by
  calc (markLast l).length = ((markLast l).map Prod.fst).length :=
        (List.length_map _ _).symm
    _ = l.length := by rw [markLast_fst]

theorem charListLe_total : ∀ (a b : List Char),
    charListLe a b = true ∨ charListLe b a = true
  | [], _ => Or.inl rfl
  | _ :: _, [] => Or.inr rfl
  | a :: as, b :: bs => by
    rcases lt_trichotomy a b with h | h | h
    · left; simp [charListLe, h]
    · subst h
      rcases charListLe_total as bs with ih | ih
      · left; simp [charListLe, lt_irrefl, ih]
      · right; simp [charListLe, lt_irrefl, ih]
    · right; simp [charListLe, h]

theorem charListLe_trans : ∀ {a b c : List Char},
    charListLe a b = true → charListLe b c = true → charListLe a c = true
  | [], _, _, _, _ => rfl
  | _ :: _, [], _, h, _ => by simp [charListLe] at h
  | _ :: _, _ :: _, [], _, h => by simp [charListLe] at h
  | a :: as, b :: bs, c :: cs, h1, h2 => by
    rcases lt_trichotomy a b with hab | hab | hab
    · rcases lt_trichotomy b c with hbc | hbc | hbc
      · have hac : a < c := lt_trans hab hbc
        simp [charListLe, hac]
      · subst hbc; simp [charListLe, hab]
      · simp [charListLe, hbc, asymm hbc] at h2
    · subst hab
      simp only [charListLe, lt_irrefl, if_false] at h1
      rcases lt_trichotomy a c with hac | hac | hac
      · simp [charListLe, hac]
      · subst hac
        simp only [charListLe, lt_irrefl, if_false] at h2 ⊢
        exact charListLe_trans h1 h2
      · simp [charListLe, hac, asymm hac] at h2
    · simp [charListLe, hab, asymm hab] at h1

theorem charListLe_antisymm : ∀ {a b : List Char},
    charListLe a b = true → charListLe b a = true → a = b
  | [], [], _, _ => rfl
  | [], _ :: _, _, h2 => by simp [charListLe] at h2
  | _ :: _, [], h1, _ => by simp [charListLe] at h1
  | a :: as, b :: bs, h1, h2 => by
    rcases lt_trichotomy a b with hab | hab | hab
    · simp [charListLe, hab, asymm hab] at h2
    · subst hab
      simp only [charListLe, lt_irrefl, if_false] at h1 h2
      rw [charListLe_antisymm h1 h2]
    · simp [charListLe, hab, asymm hab] at h1

theorem strLe_total (a b : String) : strLe a b = true ∨ strLe b a = true :=
  charListLe_total a.data b.data

theorem strLe_trans {a b c : String} (h1 : strLe a b = true)
    (h2 : strLe b c = true) : strLe a c = true :=
  charListLe_trans h1 h2

theorem strLe_antisymm {a b : String} (h1 : strLe a b = true)
    (h2 : strLe b a = true) : a = b :=
  String.ext (charListLe_antisymm h1 h2)

/-! C1: the Text Classifier. -/

/-- C1 (counterexample): `.json` is in the allow-list and `data.json`
matches the claim's disjunction, yet the classifier rejects it — the
guessed non-text MIME type `application/json` wins and the allow-list is
never consulted. -/
theorem C1_counterexample :
    text_exts.contains ".json" = true ∧ is_text_file_claim "data.json" = true ∧
    is_text_file "data.json" = false := by decide

/-- C1 (amended): the classifier returns true iff the guessed MIME type is
in the text category, or no MIME type is guessed at all and the file has
no extension or its lowercased extension is in the allow-list.  A guessed
non-text MIME type rejects the file even when its extension is
allow-listed. -/
theorem C1_amended (name : String) :
    is_text_file name = true ↔
      ((∃ m, guess_type name = some m ∧ strStarts m "text/" = true) ∨
       (guess_type name = none ∧
        (pathSuffix name = "" ∨
         text_exts.contains (strLower (pathSuffix name)) = true))) := by
  unfold is_text_file
  cases h : guess_type name with
  | some m => simp [h]
  | none =>
    by_cases hs : pathSuffix name = ""
    · simp [h, hs]
    · simp [h, hs]

/-! C5: extension exclusion. -/

/-- C5 (counterexample): with the user-supplied addition `.WEBP`, the file
`a.webp` matches the exclude set case-insensitively but is not excluded —
the file's extension is lowercased while the set members are not. -/
theorem C5_counterexample :
    ".WEBP" ∈ buildExcludeSet [".WEBP"] ∧
    extMatchesCI (buildExcludeSet [".WEBP"]) "a.webp" = true ∧
    excludedByExt (buildExcludeSet [".WEBP"]) "a.webp" = false := by decide

/-- C5 (amended): exclusion tests the lowercased extension for literal
membership in the exclude set; this coincides with the claim's
case-insensitive matching exactly when every member of the set is already
lowercase (true of the default set, not enforced for user additions). -/
theorem C5_amended (excl : List String) (h : ∀ m ∈ excl, strLower m = m)
    (n : String) : excludedByExt excl n = extMatchesCI excl n := by
  have hiff : excludedByExt excl n = true ↔ extMatchesCI excl n = true := by
    unfold excludedByExt extMatchesCI
    constructor
    · intro hc
      have hmem : strLower (pathSuffix n) ∈ excl := by
        simpa using hc
      refine List.any_eq_true.mpr ⟨strLower (pathSuffix n), hmem, ?_⟩
      rw [h _ hmem]
      exact beq_self_eq_true _
    · intro ha
      rcases List.any_eq_true.mp ha with ⟨m, hm, he⟩
      have hme : strLower m = strLower (pathSuffix n) := by simpa using he
      have h2 : m = strLower (pathSuffix n) := by rw [← h m hm]; exact hme
      subst h2
      simpa using hm
  cases hb : excludedByExt excl n with
  | true => exact (hiff.mp hb).symm
  | false =>
    cases hb2 : extMatchesCI excl n with
    | true => exact absurd (hiff.mpr hb2) (by simp [hb])
    | false => rfl

/-- C5 (witness): the amended equivalence applied to the all-lowercase
default exclude set. -/
theorem C5_amended_witness :
    (∀ m ∈ SKIP_EXTENSIONS, strLower m = m) ∧
    excludedByExt SKIP_EXTENSIONS "a.JPG" = extMatchesCI SKIP_EXTENSIONS "a.JPG" :=
  ⟨by decide, C5_amended SKIP_EXTENSIONS (by decide) "a.JPG"⟩

/-! C9: the include-TOC option. -/

/-- C9: `combine_files` produces the identical result with
`include_toc = true` and `include_toc = false`; the parameter is accepted
but never read. -/
theorem C9_include_toc_no_effect (root : Option FSEntry) (outOpenable : Bool)
    (excl : List String) (ms : Option Nat) (sh ss : Bool)
    (now src ra oa : String) :
    combine_files root outOpenable excl ms sh true ss now src ra oa =
      combine_files root outOpenable excl ms sh false ss now src ra oa := rfl

/-! C10: the latin-1 safety net. -/

/-- C10: with the default chain, decoding always succeeds (latin-1 accepts
every byte string), the trailing cp1252 entry is irrelevant, and only a
non-decode I/O failure yields the unreadable sentinel. -/
theorem C10_latin1_safety_net (bs : List Nat) :
    (∃ t, read_file_with_fallback defaultEncodings (some bs) = some t) ∧
    read_file_with_fallback defaultEncodings (some bs) =
      read_file_with_fallback [Enc.utf8, Enc.utf16, Enc.latin1] (some bs) ∧
    read_file_with_fallback defaultEncodings none = none := by
  refine ⟨?_, ?_, rfl⟩
  · simp only [read_file_with_fallback, defaultEncodings, tryEncodings,
      decodeWith, latin1_decode]
    cases utf8_decode bs with
    | some t => exact ⟨normalizeNewlines t, rfl⟩
    | none =>
      cases utf16_decode bs with
      | some t => exact ⟨normalizeNewlines t, rfl⟩
      | none => exact ⟨normalizeNewlines bs, rfl⟩
  · simp only [read_file_with_fallback, defaultEncodings, tryEncodings,
      decodeWith, latin1_decode]

/-! C8: permission denied while listing a directory. -/

/-- C8: when listing a directory fails with a permission error the tree
builder emits exactly that node's own line, records one warning, and the
surrounding `generate_tree` run still succeeds. -/
theorem C8_permission_denied (n : String) (ch : List FSEntry) (pfx : String)
    (isLast showHidden showSizes : Bool) (skipDirs : Option (List String))
    (now src : String) :
    buildTree (.dir n false ch) pfx isLast showHidden showSizes skipDirs =
      ([pfx ++ glyph isLast ++ n ++ "/"], ["Permission denied: " ++ n]) ∧
    (generate_tree (some (.dir n false ch)) true showHidden showSizes now src).1 =
      true := by
  constructor
  · rw [buildTree]
    simp
  · rfl

/-! C2: per-file errors versus run failure. -/

/-- C2 (counterexample): with a max-size configured, a stat failure on a
single discovered file makes the whole run fail: `combine_files` returns
failure although the root is valid and the output file opens. -/
theorem C2_counterexample :
    combine_files (some (.dir "proj" true [.file "a.py" none (some [112])]))
      true [] (some 5) false true false "now" "proj" "/proj" "/proj/out.md" =
      (false, "") := rfl

theorem fileVerdict_isOk (excl : List String) (maxSize : Option Nat)
    (showHidden : Bool) (relParts : List String) (n : String) (st : Option Nat)
    (h : maxSizeActive maxSize = false ∨ st.isSome = true) :
    ∃ b, fileVerdict excl maxSize showHidden relParts n st = .ok b := by
  unfold fileVerdict
  split_ifs with h1 h2 h3 h4 h5
  · exact ⟨false, rfl⟩
  · exact ⟨false, rfl⟩
  · exact ⟨false, rfl⟩
  · exact ⟨false, rfl⟩
  · rcases h with h | h
    · exact absurd h5 (by simp [h])
    · cases st with
      | none => simp at h
      | some sz =>
        by_cases hsz : sz > maxSize.getD 0
        · exact ⟨false, by simp [hsz]⟩
        · exact ⟨is_text_file n, by simp [hsz]⟩
  · exact ⟨is_text_file n, rfl⟩

mutual

theorem walkCollect_isOk (excl : List String) (maxSize : Option Nat)
    (showHidden : Bool) (relParts : List String) (e : FSEntry)
    (h : maxSizeActive maxSize = false ∨ statsOk e = true) :
    ∃ l, walkCollect excl maxSize showHidden relParts e = .ok l :=
  match e with
  | .file _ _ _ => ⟨[], rfl⟩
  | .dir n listable ch => by
    cases listable with
    | false => exact ⟨[], by rw [walkCollect]; rfl⟩
    | true =>
      have h' : maxSizeActive maxSize = false ∨ statsOkList ch = true := by
        rcases h with h | h
        · exact Or.inl h
        · exact Or.inr (by simpa [statsOk] using h)
      obtain ⟨l1, e1⟩ := collectHere_isOk excl maxSize showHidden relParts ch h'
      obtain ⟨l2, e2⟩ := walkChildren_isOk excl maxSize showHidden relParts ch h'
      exact ⟨l1 ++ l2, by rw [walkCollect]; simp only [Bool.not_true, if_neg]; rw [e1, e2]; rfl⟩

theorem collectHere_isOk (excl : List String) (maxSize : Option Nat)
    (showHidden : Bool) (relParts : List String) (ch : List FSEntry)
    (h : maxSizeActive maxSize = false ∨ statsOkList ch = true) :
    ∃ l, collectHere excl maxSize showHidden relParts ch = .ok l :=
  match ch with
  | [] => ⟨[], rfl⟩
  | .dir dn dl dch :: rest => by
    have h' : maxSizeActive maxSize = false ∨ statsOkList rest = true := by
      rcases h with h | h
      · exact Or.inl h
      · exact Or.inr (by simp [statsOkList] at h; exact h.2)
    obtain ⟨l, el⟩ := collectHere_isOk excl maxSize showHidden relParts rest h'
    exact ⟨l, by rw [collectHere]; exact el⟩
  | .file n st c :: rest => by
    have hst : maxSizeActive maxSize = false ∨ st.isSome = true := by
      rcases h with h | h
      · exact Or.inl h
      · simp [statsOkList, statsOk] at h
        exact Or.inr h.1
    have h' : maxSizeActive maxSize = false ∨ statsOkList rest = true := by
      rcases h with h | h
      · exact Or.inl h
      · exact Or.inr (by simp [statsOkList] at h; exact h.2)
    obtain ⟨b, eb⟩ := fileVerdict_isOk excl maxSize showHidden relParts n st hst
    obtain ⟨l, el⟩ := collectHere_isOk excl maxSize showHidden relParts rest h'
    refine ⟨if b then (relJoin (relParts ++ [n]), c) :: l else l, ?_⟩
    rw [collectHere, eb, el]
    rfl

theorem walkChildren_isOk (excl : List String) (maxSize : Option Nat)
    (showHidden : Bool) (relParts : List String) (ch : List FSEntry)
    (h : maxSizeActive maxSize = false ∨ statsOkList ch = true) :
    ∃ l, walkChildren excl maxSize showHidden relParts ch = .ok l :=
  match ch with
  | [] => ⟨[], rfl⟩
  | .file n st c :: rest => by
    have h' : maxSizeActive maxSize = false ∨ statsOkList rest = true := by
      rcases h with h | h
      · exact Or.inl h
      · exact Or.inr (by simp [statsOkList] at h; exact h.2)
    obtain ⟨l, el⟩ := walkChildren_isOk excl maxSize showHidden relParts rest h'
    exact ⟨l, by rw [walkChildren]; exact el⟩
  | .dir dn dl dch :: rest => by
    have hd : maxSizeActive maxSize = false ∨ statsOk (.dir dn dl dch) = true := by
      rcases h with h | h
      · exact Or.inl h
      · simp [statsOkList] at h
        exact Or.inr h.1
    have h' : maxSizeActive maxSize = false ∨ statsOkList rest = true := by
      rcases h with h | h
      · exact Or.inl h
      · exact Or.inr (by simp [statsOkList] at h; exact h.2)
    obtain ⟨l1, e1⟩ := walkCollect_isOk excl maxSize showHidden (relParts ++ [dn])
      (.dir dn dl dch) hd
    obtain ⟨l2, e2⟩ := walkChildren_isOk excl maxSize showHidden relParts rest h'
    by_cases hskip : SKIP_DIRS.contains dn = true
    · exact ⟨l2, by rw [walkChildren, if_pos hskip]; exact e2⟩
    · exact ⟨l1 ++ l2, by rw [walkChildren, if_neg hskip, e1, e2]; rfl⟩

end

/-- C2 (amended): per-file content errors never fail the run — whenever
the size check is inactive or every discovered file's stat succeeds,
`combine_files` on a valid root with an openable output returns success
whatever the files' contents; failure arises only from an invalid root,
an unopenable output, or a stat failure under a configured max-size. -/
theorem C2_amended (e : FSEntry) (excl : List String) (ms : Option Nat)
    (sh toc ss : Bool) (now src ra oa : String)
    (h : maxSizeActive ms = false ∨ statsOk e = true) :
    (combine_files (some e) true excl ms sh toc ss now src ra oa).1 = true ∧
    combine_files none true excl ms sh toc ss now src ra oa = (false, "") ∧
    (combine_files (some e) false excl ms sh toc ss now src ra oa).1 = false := by
  obtain ⟨l, hl⟩ := walkCollect_isOk excl ms sh [] e h
  refine ⟨?_, rfl, ?_⟩
  · simp [combine_files, hl]
  · simp [combine_files, hl]

/-- C2 (witness): the amended theorem at a concrete one-file tree whose
stat succeeds, with max-size 5 configured. -/
theorem C2_amended_witness :
    (maxSizeActive (some 5) = false ∨
     statsOk (.dir "proj" true [.file "a.py" (some 10) (some [112])]) = true) ∧
    ((combine_files (some (.dir "proj" true [.file "a.py" (some 10) (some [112])]))
        true [] (some 5) false true false "now" "proj" "/proj" "/proj/out.md").1 = true ∧
     combine_files none true [] (some 5) false true false
        "now" "proj" "/proj" "/proj/out.md" = (false, "") ∧
     (combine_files (some (.dir "proj" true [.file "a.py" (some 10) (some [112])]))
        false [] (some 5) false true false "now" "proj" "/proj" "/proj/out.md").1 = false) :=
  ⟨Or.inr rfl,
   C2_amended (.dir "proj" true [.file "a.py" (some 10) (some [112])])
     [] (some 5) false true false "now" "proj" "/proj" "/proj/out.md" (Or.inr rfl)⟩

/-! C7: sibling ordering. -/

/-- C7: at any node, the emission order of the siblings — the sorted
directory group followed by the sorted file group, exactly the lists
`buildTree` iterates over — lists every directory before every file and
each group in ascending ordinal name order. -/
theorem C7_sibling_order (showHidden : Bool) (skipDirs : Option (List String))
    (ch : List FSEntry) :
    List.Pairwise sibOrder
      (sortedDirs showHidden skipDirs ch ++ sortedFiles showHidden ch) := by
  haveI : IsTotal FSEntry entryLe := ⟨fun a b => strLe_total a.name b.name⟩
  haveI : IsTrans FSEntry entryLe := ⟨fun a b c h1 h2 => strLe_trans h1 h2⟩
  have hd : ∀ a ∈ sortedDirs showHidden skipDirs ch, a.isDir = true := by
    intro a ha
    have h1 := ((List.perm_insertionSort entryLe _).mem_iff).mp ha
    have h2 := (List.mem_filter.mp h1).2
    unfold dirSelect at h2
    simp only [Bool.and_eq_true] at h2
    exact h2.1
  have hf : ∀ a ∈ sortedFiles showHidden ch, a.isFile = true := by
    intro a ha
    have h1 := ((List.perm_insertionSort entryLe _).mem_iff).mp ha
    exact (List.mem_filter.mp h1).2
  rw [List.pairwise_append]
  refine ⟨?_, ?_, ?_⟩
  · exact (List.sorted_insertionSort entryLe _).imp_of_mem
      (fun ha hb hr => Or.inr (Or.inl ⟨hd _ ha, hd _ hb, hr⟩))
  · exact (List.sorted_insertionSort entryLe _).imp_of_mem
      (fun ha hb hr => Or.inr (Or.inr ⟨hf _ ha, hf _ hb, hr⟩))
  · exact fun a ha b hb => Or.inl ⟨hd a ha, hf b hb⟩

/-! C6: one line per observed entry. -/

theorem visibleListCount_eq (sh : Bool) (sd : Option (List String))
    (ch : List FSEntry) :
    visibleListCount sh sd ch =
      (((visChildren sh ch).filter (dirSelect sd)).map
        (visibleEntryCount sh sd)).sum +
      ((visChildren sh ch).filter FSEntry.isFile).length := by
  induction ch with
  | nil => simp [visibleListCount, visChildren]
  | cons c rest ih =>
    cases c with
    | file n st co =>
      by_cases hk : hiddenKeep sh (.file n st co) = true
      · simp [visibleListCount, visChildren, List.filter_cons, hk, dirSelect,
          FSEntry.isDir, FSEntry.isFile, ih]
        omega
      · simp only [Bool.not_eq_true] at hk
        simp [visibleListCount, visChildren, List.filter_cons, hk, ih]
    | dir dn dl dch =>
      by_cases hk : hiddenKeep sh (.dir dn dl dch) = true
      · by_cases hsel : dirSelect sd (.dir dn dl dch) = true
        · simp [visibleListCount, visChildren, List.filter_cons, hk, hsel,
            FSEntry.isFile, ih]
          omega
        · simp only [Bool.not_eq_true] at hsel
          simp [visibleListCount, visChildren, List.filter_cons, hk, hsel,
            FSEntry.isFile, ih]
      · simp only [Bool.not_eq_true] at hk
        simp [visibleListCount, visChildren, List.filter_cons, hk, ih]

theorem buildTree_length_eq (e : FSEntry) (pfx : String) (isLast : Bool)
    (sh ss : Bool) (sd : Option (List String)) :
    (buildTree e pfx isLast sh ss sd).1.length = visibleEntryCount sh sd e := by
  match e with
  | .file n st co =>
    rw [buildTree]
    rfl
  | .dir n listable ch =>
    rw [buildTree]
    cases listable with
    | false => rfl
    | true =>
      simp only [Bool.not_true, Bool.false_eq_true, if_false]
      have hrec : ∀ p : {x // x ∈ markLast (sortedDirs sh sd ch)},
          (buildTree p.1.1 (pfx ++ childPad isLast)
            (p.1.2 && (sortedFiles sh ch).isEmpty) sh ss sd).1.length =
          visibleEntryCount sh sd p.1.1 :=
        fun p => buildTree_length_eq p.1.1 _ _ _ _ _
      simp only [List.length_cons, List.length_append, List.length_flatten,
        List.map_map, List.length_map]
      have h1 : ((markLast (sortedDirs sh sd ch)).attach.map
            (List.length ∘ Prod.fst ∘ fun p => buildTree p.1.1 (pfx ++ childPad isLast)
              (p.1.2 && (sortedFiles sh ch).isEmpty) sh ss sd)) =
          (markLast (sortedDirs sh sd ch)).attach.map
            (fun p => visibleEntryCount sh sd p.1.1) := by
        apply List.map_congr_left
        intro p _
        exact hrec p
      rw [h1, List.attach_map_val (markLast (sortedDirs sh sd ch))
        (fun (q : FSEntry × Bool) => visibleEntryCount sh sd q.1)]
      have h2 : (markLast (sortedDirs sh sd ch)).map
            (fun q => visibleEntryCount sh sd q.1) =
          (sortedDirs sh sd ch).map (visibleEntryCount sh sd) := by
        have := congrArg (List.map (visibleEntryCount sh sd))
          (markLast_fst (sortedDirs sh sd ch))
        rw [← this, List.map_map]
        rfl
      rw [h2]
      have h3 : ((sortedDirs sh sd ch).map (visibleEntryCount sh sd)).sum =
          (((visChildren sh ch).filter (dirSelect sd)).map
            (visibleEntryCount sh sd)).sum :=
        ((List.perm_insertionSort entryLe _).map (visibleEntryCount sh sd)).sum_eq
      rw [h3, markLast_length]
      have h4 : (sortedFiles sh ch).length =
          ((visChildren sh ch).filter FSEntry.isFile).length :=
        (List.perm_insertionSort entryLe _).length_eq
      rw [h4]
      have h5 : visibleEntryCount sh sd (FSEntry.dir n true ch) =
          1 + visibleListCount sh sd ch := by
        rw [visibleEntryCount]
        simp
      rw [h5, visibleListCount_eq]
      omega
termination_by sizeOf e
decreasing_by
  have memML : ∀ (l : List FSEntry) (q : FSEntry × Bool), q ∈ markLast l → q.1 ∈ l := by
    intro l
    induction l with
    | nil => intro q hq; simp [markLast] at hq
    | cons a rest ih =>
      intro q hq
      cases rest with
      | nil =>
        simp [markLast] at hq
        simp [hq]
      | cons b rest2 =>
        rw [markLast] at hq
        rcases List.mem_cons.mp hq with h | h
        · simp [h]
        · exact List.mem_cons_of_mem a (ih q h)
  have h1 := memML _ _ p.2
  have h2 := ((List.perm_insertionSort _ _).mem_iff).mp h1
  have h3 := List.mem_of_mem_filter (List.mem_of_mem_filter h2)
  have h4 := List.sizeOf_lt_of_mem h3
  simp only [FSEntry.dir.sizeOf_spec]
  omega

/-- C6: the tree builder's output for a node has exactly one line per
entry the filtered traversal observes under (and including) that node:
no duplicates, no omissions. -/
theorem C6_one_line_per_entry (e : FSEntry) (pfx : String) (isLast : Bool)
    (showHidden showSizes : Bool) (skipDirs : Option (List String)) :
    (buildTree e pfx isLast showHidden showSizes skipDirs).1.length =
      visibleEntryCount showHidden skipDirs e :=
  buildTree_length_eq e pfx isLast showHidden showSizes skipDirs

/-! C3: section ordering and enumeration independence. -/

mutual

theorem walkCollect_multiset (excl : List String) (maxSize : Option Nat)
    (showHidden : Bool) (relParts : List String) (e : FSEntry) (l : List FileRec)
    (h : walkCollect excl maxSize showHidden relParts e = .ok l) :
    (l : Multiset FileRec) = collectM excl maxSize showHidden relParts e :=
  match e with
  | .file _ _ _ => by
    rw [walkCollect] at h
    obtain rfl : ([] : List FileRec) = l := Except.ok.inj h
    rfl
  | .dir n listable ch => by
    rw [walkCollect] at h
    rw [collectM]
    cases listable with
    | false =>
      simp only [Bool.not_false, if_true] at h ⊢
      obtain rfl : ([] : List FileRec) = l := Except.ok.inj h
      rfl
    | true =>
      simp only [Bool.not_true, Bool.false_eq_true, if_false] at h ⊢
      cases hh : collectHere excl maxSize showHidden relParts ch with
      | error err => rw [hh] at h; exact Except.noConfusion h
      | ok here =>
        cases hd : walkChildren excl maxSize showHidden relParts ch with
        | error err => rw [hh, hd] at h; exact Except.noConfusion h
        | ok deeper =>
          rw [hh, hd] at h
          obtain rfl : here ++ deeper = l := Except.ok.inj h
          rw [← collectHere_multiset excl maxSize showHidden relParts ch here hh,
            ← walkChildren_multiset excl maxSize showHidden relParts ch deeper hd]
          exact (Multiset.coe_add here deeper).symm

theorem collectHere_multiset (excl : List String) (maxSize : Option Nat)
    (showHidden : Bool) (relParts : List String) (ch : List FSEntry)
    (l : List FileRec)
    (h : collectHere excl maxSize showHidden relParts ch = .ok l) :
    (l : Multiset FileRec) = hereM excl maxSize showHidden relParts ch :=
  match ch with
  | [] => by
    rw [collectHere] at h
    obtain rfl : ([] : List FileRec) = l := Except.ok.inj h
    rfl
  | .dir dn dl dch :: rest => by
    rw [collectHere] at h
    rw [hereM]
    exact collectHere_multiset excl maxSize showHidden relParts rest l h
  | .file n st c :: rest => by
    rw [collectHere] at h
    rw [hereM]
    cases hv : fileVerdict excl maxSize showHidden relParts n st with
    | error err => rw [hv] at h; exact Except.noConfusion h
    | ok b =>
      cases hrest : collectHere excl maxSize showHidden relParts rest with
      | error err => rw [hv, hrest] at h; exact Except.noConfusion h
      | ok others =>
        rw [hv, hrest] at h
        obtain rfl : (if b then (relJoin (relParts ++ [n]), c) :: others else others) = l :=
          Except.ok.inj h
        have hkeep : fileKeepM excl maxSize showHidden relParts n st = b := by
          rw [fileKeepM, hv]
        rw [hkeep,
          ← collectHere_multiset excl maxSize showHidden relParts rest others hrest]
        cases b with
        | true => simp [Multiset.singleton_add, Multiset.cons_coe]
        | false => simp

theorem walkChildren_multiset (excl : List String) (maxSize : Option Nat)
    (showHidden : Bool) (relParts : List String) (ch : List FSEntry)
    (l : List FileRec)
    (h : walkChildren excl maxSize showHidden relParts ch = .ok l) :
    (l : Multiset FileRec) = childrenM excl maxSize showHidden relParts ch :=
  match ch with
  | [] => by
    rw [walkChildren] at h
    obtain rfl : ([] : List FileRec) = l := Except.ok.inj h
    rfl
  | .file n st c :: rest => by
    rw [walkChildren] at h
    rw [childrenM]
    exact walkChildren_multiset excl maxSize showHidden relParts rest l h
  | .dir dn dl dch :: rest => by
    rw [walkChildren] at h
    rw [childrenM]
    by_cases hskip : SKIP_DIRS.contains dn = true
    · rw [if_pos hskip] at h
      rw [if_pos hskip, zero_add]
      exact walkChildren_multiset excl maxSize showHidden relParts rest l h
    · rw [if_neg hskip] at h
      rw [if_neg hskip]
      cases h1 : walkCollect excl maxSize showHidden (relParts ++ [dn])
          (.dir dn dl dch) with
      | error err => rw [h1] at h; exact Except.noConfusion h
      | ok xs =>
        cases h2 : walkChildren excl maxSize showHidden relParts rest with
        | error err => rw [h1, h2] at h; exact Except.noConfusion h
        | ok ys =>
          rw [h1, h2] at h
          obtain rfl : xs ++ ys = l := Except.ok.inj h
          rw [← walkCollect_multiset excl maxSize showHidden (relParts ++ [dn])
              (.dir dn dl dch) xs h1,
            ← walkChildren_multiset excl maxSize showHidden relParts rest ys h2]
          exact (Multiset.coe_add xs ys).symm

end

/-- C3: the per-file sections appear in ordinal sort order of the relative
paths, and on any two trees that the walk abstracts to the same multiset
of file records — in particular the same tree enumerated in any two
orders — the sections come out identical, provided (as on a real
filesystem) relative paths are unique. -/
theorem C3_sections_sorted_and_deterministic
    (t1 t2 : FSEntry) (excl : List String) (maxSize : Option Nat)
    (showHidden : Bool) (rootAbs outAbs : String) (l1 l2 : List FileRec)
    (h1 : walkCollect excl maxSize showHidden [] t1 = .ok l1)
    (h2 : walkCollect excl maxSize showHidden [] t2 = .ok l2)
    (hm : collectM excl maxSize showHidden [] t1 =
          collectM excl maxSize showHidden [] t2)
    (hnd : (l1.map Prod.fst).Nodup) :
    List.Pairwise (fun a b => strLe a b = true)
      (docSectionPaths rootAbs outAbs l1) ∧
    docSectionPaths rootAbs outAbs l1 = docSectionPaths rootAbs outAbs l2 := by
  haveI : IsTotal FileRec recLe := ⟨fun a b => strLe_total a.1 b.1⟩
  haveI : IsTrans FileRec recLe := ⟨fun a b c ha hb => strLe_trans ha hb⟩
  have hperm : l1.Perm l2 := by
    apply Multiset.coe_eq_coe.mp
    rw [walkCollect_multiset excl maxSize showHidden [] t1 l1 h1, hm,
      ← walkCollect_multiset excl maxSize showHidden [] t2 l2 h2]
  set p : FileRec → Bool := fun r => !(rootAbs ++ "/" ++ r.1 == outAbs) with hp
  have hsorted : ∀ l : List FileRec,
      List.Pairwise (fun a b => strLe a b = true)
        (((sortRecs l).filter p).map Prod.fst) := by
    intro l
    rw [List.pairwise_map]
    exact List.Pairwise.filter p (List.sorted_insertionSort recLe l)
  have hnd1 : (((sortRecs l1).filter p).map Prod.fst).Nodup := by
    have hs : ((sortRecs l1).filter p).Sublist (sortRecs l1) := List.filter_sublist _
    have hmapsub := List.Sublist.map Prod.fst hs
    have hnds : ((sortRecs l1).map Prod.fst).Nodup := by
      have hp2 := (List.perm_insertionSort recLe l1).map Prod.fst
      exact (hp2.nodup_iff).mpr hnd
    exact hnds.sublist hmapsub
  have hnd2raw : (l2.map Prod.fst).Nodup := ((hperm.map Prod.fst).nodup_iff).mp hnd
  have hnd2 : (((sortRecs l2).filter p).map Prod.fst).Nodup := by
    have hs : ((sortRecs l2).filter p).Sublist (sortRecs l2) := List.filter_sublist _
    have hmapsub := List.Sublist.map Prod.fst hs
    have hnds : ((sortRecs l2).map Prod.fst).Nodup := by
      have hp2 := (List.perm_insertionSort recLe l2).map Prod.fst
      exact (hp2.nodup_iff).mpr hnd2raw
    exact hnds.sublist hmapsub
  refine ⟨hsorted l1, ?_⟩
  have hpermsec : (((sortRecs l1).filter p).map Prod.fst).Perm
      (((sortRecs l2).filter p).map Prod.fst) := by
    have hsp : (sortRecs l1).Perm (sortRecs l2) :=
      ((List.perm_insertionSort recLe l1).trans hperm).trans
        (List.perm_insertionSort recLe l2).symm
    exact (hsp.filter p).map Prod.fst
  haveI : IsAntisymm String (fun a b => strLe a b = true ∧ a ≠ b) :=
    ⟨fun a b hab hba => strLe_antisymm hab.1 hba.1⟩
  have hstrict1 : List.Pairwise (fun a b => strLe a b = true ∧ a ≠ b)
      (((sortRecs l1).filter p).map Prod.fst) :=
    (hsorted l1).and hnd1
  have hstrict2 : List.Pairwise (fun a b => strLe a b = true ∧ a ≠ b)
      (((sortRecs l2).filter p).map Prod.fst) :=
    (hsorted l2).and hnd2
  exact List.eq_of_perm_of_sorted hpermsec hstrict1 hstrict2

/-- C3 (witness): two enumerations of the same two-file directory, listed
in opposite orders, produce sorted and identical section paths. -/
theorem C3_witness :
    (walkCollect [] none false []
      (.dir "r" true [.file "b.txt" (some 1) (some [98]),
                      .file "a.txt" (some 1) (some [97])]) =
      .ok [("b.txt", some [98]), ("a.txt", some [97])]) ∧
    (walkCollect [] none false []
      (.dir "r" true [.file "a.txt" (some 1) (some [97]),
                      .file "b.txt" (some 1) (some [98])]) =
      .ok [("a.txt", some [97]), ("b.txt", some [98])]) ∧
    (collectM [] none false []
      (.dir "r" true [.file "b.txt" (some 1) (some [98]),
                      .file "a.txt" (some 1) (some [97])]) =
     collectM [] none false []
      (.dir "r" true [.file "a.txt" (some 1) (some [97]),
                      .file "b.txt" (some 1) (some [98])])) ∧
    ((([("b.txt", some [98]), ("a.txt", some [97])] : List FileRec).map
        Prod.fst).Nodup) ∧
    (List.Pairwise (fun a b => strLe a b = true)
      (docSectionPaths "/r" "/r/out.md"
        [("b.txt", some [98]), ("a.txt", some [97])]) ∧
     docSectionPaths "/r" "/r/out.md" [("b.txt", some [98]), ("a.txt", some [97])] =
     docSectionPaths "/r" "/r/out.md" [("a.txt", some [97]), ("b.txt", some [98])]) := by
  refine ⟨rfl, rfl, ?_, by decide, ?_⟩
  case _ => decide
  case _ =>
    exact C3_sections_sorted_and_deterministic
      (.dir "r" true [.file "b.txt" (some 1) (some [98]),
                      .file "a.txt" (some 1) (some [97])])
      (.dir "r" true [.file "a.txt" (some 1) (some [97]),
                      .file "b.txt" (some 1) (some [98])])
      [] none false "/r" "/r/out.md"
      [("b.txt", some [98]), ("a.txt", some [97])]
      [("a.txt", some [97]), ("b.txt", some [98])]
      rfl rfl (by decide) (by decide)

/-! C4: encode-then-read round-trips. -/

theorem normalizeNewlines_eq_self : ∀ (t : List Nat), 13 ∉ t →
    normalizeNewlines t = t
  | [], _ => rfl
  | c :: rest, h => by
    have hc : c ≠ 13 := fun hc => h (hc ▸ List.mem_cons_self c rest)
    have hr : 13 ∉ rest := fun hm => h (List.mem_cons_of_mem c hm)
    rw [normalizeNewlines.eq_def]
    split
    · simp_all
    · simp_all
    · simp_all
    · rename_i c2 rest2 _ _ heq
      injection heq with e1 e2
      subst e1; subst e2
      simp [normalizeNewlines_eq_self rest hr]

theorem utf8_decode_one (c : Nat) (h : c < 0x80) (rest : List Nat) :
    utf8_decode (c :: rest) = (utf8_decode rest).map (c :: ·) := by
  rw [utf8_decode.eq_def]
  simp only [if_pos h]

theorem utf8_decode_two (c : Nat) (h1 : 0x80 ≤ c) (h2 : c < 0x800)
    (rest : List Nat) :
    utf8_decode ((0xC0 + c / 64) :: (0x80 + c % 64) :: rest) =
      (utf8_decode rest).map (c :: ·) := by
  have e1 : ¬ (0xC0 + c / 64 < 0x80) := by omega
  have e2 : ¬ (0xC0 + c / 64 < 0xC2) := by omega
  have e3 : 0xC0 + c / 64 < 0xE0 := by omega
  have e4 : isCont (0x80 + c % 64) = true := by
    unfold isCont
    simp only [Bool.and_eq_true, decide_eq_true_eq]
    omega
  have ev : (0xC0 + c / 64 - 0xC0) * 64 + (0x80 + c % 64 - 0x80) = c := by omega
  rw [utf8_decode.eq_def]
  simp only [if_neg e1, if_neg e2, if_pos e3]
  rw [utf8_tail2]
  simp only [e4, if_true, ev]

theorem utf8_decode_three (c : Nat) (h1 : 0x800 ≤ c) (h2 : c < 0x10000)
    (hs : ¬(0xD800 ≤ c ∧ c ≤ 0xDFFF)) (rest : List Nat) :
    utf8_decode ((0xE0 + c / 4096) :: (0x80 + c / 64 % 64) ::
      (0x80 + c % 64) :: rest) = (utf8_decode rest).map (c :: ·) := by
  have e1 : ¬ (0xE0 + c / 4096 < 0x80) := by omega
  have e2 : ¬ (0xE0 + c / 4096 < 0xC2) := by omega
  have e3 : ¬ (0xE0 + c / 4096 < 0xE0) := by omega
  have e4 : 0xE0 + c / 4096 < 0xF0 := by omega
  have e5 : isCont (0x80 + c / 64 % 64) = true := by
    unfold isCont
    simp only [Bool.and_eq_true, decide_eq_true_eq]
    omega
  have e6 : isCont (0x80 + c % 64) = true := by
    unfold isCont
    simp only [Bool.and_eq_true, decide_eq_true_eq]
    omega
  have ev : (0xE0 + c / 4096 - 0xE0) * 4096 + (0x80 + c / 64 % 64 - 0x80) * 64 +
      (0x80 + c % 64 - 0x80) = c := by omega
  have e7 : (decide (c < 0x800) || (decide (0xD800 ≤ c) && decide (c ≤ 0xDFFF))) =
      false := by
    simp only [Bool.or_eq_false_iff, Bool.and_eq_false_iff, decide_eq_false_iff_not]
    omega
  rw [utf8_decode.eq_def]
  simp only [if_neg e1, if_neg e2, if_neg e3, if_pos e4]
  rw [utf8_tail3]
  simp only [e5, e6, Bool.and_self, if_true, ev, e7, Bool.false_eq_true, if_false]

theorem utf8_decode_four (c : Nat) (h1 : 0x10000 ≤ c) (h2 : c ≤ 0x10FFFF)
    (rest : List Nat) :
    utf8_decode ((0xF0 + c / 262144) :: (0x80 + c / 4096 % 64) ::
      (0x80 + c / 64 % 64) :: (0x80 + c % 64) :: rest) =
      (utf8_decode rest).map (c :: ·) := by
  have e1 : ¬ (0xF0 + c / 262144 < 0x80) := by omega
  have e2 : ¬ (0xF0 + c / 262144 < 0xC2) := by omega
  have e3 : ¬ (0xF0 + c / 262144 < 0xE0) := by omega
  have e4 : ¬ (0xF0 + c / 262144 < 0xF0) := by omega
  have e5 : 0xF0 + c / 262144 < 0xF5 := by omega
  have c1 : isCont (0x80 + c / 4096 % 64) = true := by
    unfold isCont
    simp only [Bool.and_eq_true, decide_eq_true_eq]
    omega
  have c2' : isCont (0x80 + c / 64 % 64) = true := by
    unfold isCont
    simp only [Bool.and_eq_true, decide_eq_true_eq]
    omega
  have c3 : isCont (0x80 + c % 64) = true := by
    unfold isCont
    simp only [Bool.and_eq_true, decide_eq_true_eq]
    omega
  have ev : (0xF0 + c / 262144 - 0xF0) * 262144 +
      (0x80 + c / 4096 % 64 - 0x80) * 4096 +
      (0x80 + c / 64 % 64 - 0x80) * 64 + (0x80 + c % 64 - 0x80) = c := by omega
  have e7 : (decide (c < 0x10000) || decide (0x10FFFF < c)) = false := by
    simp only [Bool.or_eq_false_iff, decide_eq_false_iff_not]
    omega
  rw [utf8_decode.eq_def]
  simp only [if_neg e1, if_neg e2, if_neg e3, if_neg e4, if_pos e5]
  rw [utf8_tail4]
  simp only [c1, c2', c3, Bool.and_self, if_true, ev, e7, Bool.false_eq_true,
    if_false]

/-- Character-by-character decoding inverts character-by-character
encoding: if every character of the text satisfies `P`, and on `P` the
decoder peels off exactly the encoder's bytes, then decoding the
concatenated encoding recovers the text. -/
theorem encodeAll_decode (f : Nat → Option (List Nat))
    (dec : List Nat → Option (List Nat)) (P : Nat → Prop)
    (hc : ∀ c, P c → ∃ bc, f c = some bc ∧
      ∀ rest, dec (bc ++ rest) = (dec rest).map (c :: ·))
    (hnil : dec [] = some []) :
    ∀ t : List Nat, (∀ c ∈ t, P c) →
      ∃ bs, encodeAll f t = some bs ∧ dec bs = some t
  | [], _ => ⟨[], rfl, hnil⟩
  | c :: t', h => by
    obtain ⟨bc, hfc, hdec⟩ := hc c (h c (List.mem_cons_self c t'))
    obtain ⟨bs', e1, e2⟩ := encodeAll_decode f dec P hc hnil t'
      (fun d hd => h d (List.mem_cons_of_mem c hd))
    refine ⟨bc ++ bs', ?_, ?_⟩
    · rw [encodeAll, hfc, e1]
      rfl
    · rw [hdec bs', e2]
      rfl

theorem utf8_encodeChar_decodes (c : Nat) (h : validChar c) :
    ∃ bc, utf8_encodeChar c = some bc ∧
      ∀ rest, utf8_decode (bc ++ rest) = (utf8_decode rest).map (c :: ·) := by
  obtain ⟨hmax, hsur⟩ := h
  by_cases h1 : c < 0x80
  · refine ⟨[c], ?_, ?_⟩
    · rw [utf8_encodeChar, if_pos h1]
    · intro rest
      exact utf8_decode_one c h1 rest
  · by_cases h2 : c < 0x800
    · refine ⟨[0xC0 + c / 64, 0x80 + c % 64], ?_, ?_⟩
      · rw [utf8_encodeChar, if_neg h1, if_pos h2]
      · intro rest
        exact utf8_decode_two c (by omega) h2 rest
    · by_cases h3 : c < 0x10000
      · refine ⟨[0xE0 + c / 4096, 0x80 + c / 64 % 64, 0x80 + c % 64], ?_, ?_⟩
        · rw [utf8_encodeChar, if_neg h1, if_neg h2, if_pos h3, if_neg hsur]
        · intro rest
          exact utf8_decode_three c (by omega) h3 hsur rest
      · refine ⟨[0xF0 + c / 262144, 0x80 + c / 4096 % 64, 0x80 + c / 64 % 64,
          0x80 + c % 64], ?_, ?_⟩
        · rw [utf8_encodeChar, if_neg h1, if_neg h2, if_neg h3, if_pos hmax]
        · intro rest
          exact utf8_decode_four c (by omega) hmax rest

theorem utf8_roundtrip (t : List Nat) (h : validText t) :
    ∃ bs, utf8_encode t = some bs ∧ utf8_decode bs = some t :=
  encodeAll_decode utf8_encodeChar utf8_decode validChar
    utf8_encodeChar_decodes rfl t h

theorem utf16_unit_nonsurrogate (c : Nat) (hc : c < 0x10000)
    (hs : ¬(0xD800 ≤ c ∧ c ≤ 0xDFFF)) (rest : List Nat) :
    utf16_body_decode ((c % 256) :: (c / 256) :: rest) =
      (utf16_body_decode rest).map (c :: ·) := by
  rw [utf16_body_decode, utf16_body_decode, utf16_unitsLE]
  have hu : c % 256 + 256 * (c / 256) = c := by omega
  rw [hu]
  cases hul : utf16_unitsLE rest with
  | none => rfl
  | some us =>
    show utf16_combine (c :: us) = (utf16_combine us).map (c :: ·)
    have hcond : (decide (c < 0xD800) || decide (0xE000 ≤ c)) = true := by
      simp only [Bool.or_eq_true, decide_eq_true_eq]
      omega
    rw [utf16_combine]
    simp only [hcond, if_true]

theorem utf16_unit_pair_gen (hi lo : Nat) (hh1 : 0xD800 ≤ hi)
    (hh2 : hi < 0xDC00) (hl1 : 0xDC00 ≤ lo) (hl2 : lo < 0xE000)
    (rest : List Nat) :
    utf16_body_decode
      ((hi % 256) :: (hi / 256) :: (lo % 256) :: (lo / 256) :: rest) =
      (utf16_body_decode rest).map
        ((0x10000 + (hi - 0xD800) * 1024 + (lo - 0xDC00)) :: ·) := by
  rw [utf16_body_decode, utf16_body_decode, utf16_unitsLE, utf16_unitsLE]
  have hu1 : hi % 256 + 256 * (hi / 256) = hi := by omega
  have hu2 : lo % 256 + 256 * (lo / 256) = lo := by omega
  rw [hu1, hu2]
  cases hul : utf16_unitsLE rest with
  | none => rfl
  | some us =>
    show utf16_combine (hi :: lo :: us) =
      (utf16_combine us).map ((0x10000 + (hi - 0xD800) * 1024 + (lo - 0xDC00)) :: ·)
    have hc1 : (decide (hi < 0xD800) || decide (0xE000 ≤ hi)) = false := by
      simp only [Bool.or_eq_false_iff, decide_eq_false_iff_not]
      omega
    rw [utf16_combine]
    simp only [hc1, Bool.false_eq_true, if_false, if_pos hh2]
    rw [utf16_pair]
    have hc3 : (decide (0xDC00 ≤ lo) && decide (lo < 0xE000)) = true := by
      simp only [Bool.and_eq_true, decide_eq_true_eq]
      omega
    simp only [hc3, if_true]

theorem utf16_unit_pair (c : Nat) (h1 : 0x10000 ≤ c) (h2 : c ≤ 0x10FFFF)
    (rest : List Nat) :
    utf16_body_decode
      (((0xD800 + (c - 0x10000) / 1024) % 256) ::
       ((0xD800 + (c - 0x10000) / 1024) / 256) ::
       ((0xDC00 + (c - 0x10000) % 1024) % 256) ::
       ((0xDC00 + (c - 0x10000) % 1024) / 256) :: rest) =
      (utf16_body_decode rest).map (c :: ·) := by
  have h := utf16_unit_pair_gen (0xD800 + (c - 0x10000) / 1024)
    (0xDC00 + (c - 0x10000) % 1024) (by omega) (by omega) (by omega) (by omega)
    rest
  have ev : 0x10000 + (0xD800 + (c - 0x10000) / 1024 - 0xD800) * 1024 +
      (0xDC00 + (c - 0x10000) % 1024 - 0xDC00) = c := by omega
  rw [ev] at h
  exact h

theorem utf16_encodeChar_decodes (c : Nat) (h : validChar c) :
    ∃ bc, utf16_encodeChar c = some bc ∧
      ∀ rest, utf16_body_decode (bc ++ rest) =
        (utf16_body_decode rest).map (c :: ·) := by
  obtain ⟨hmax, hsur⟩ := h
  by_cases h1 : c < 0x10000
  · refine ⟨[c % 256, c / 256], ?_, ?_⟩
    · rw [utf16_encodeChar, if_pos h1, if_neg hsur]
    · intro rest
      exact utf16_unit_nonsurrogate c h1 hsur rest
  · refine ⟨[(0xD800 + (c - 0x10000) / 1024) % 256,
      (0xD800 + (c - 0x10000) / 1024) / 256,
      (0xDC00 + (c - 0x10000) % 1024) % 256,
      (0xDC00 + (c - 0x10000) % 1024) / 256], ?_, ?_⟩
    · rw [utf16_encodeChar, if_neg h1, if_pos hmax]
    · intro rest
      exact utf16_unit_pair c (by omega) hmax rest

theorem utf16_roundtrip (t : List Nat) (h : validText t) :
    ∃ body, encodeAll utf16_encodeChar t = some body ∧
      utf16_body_decode body = some t :=
  encodeAll_decode utf16_encodeChar utf16_body_decode validChar
    utf16_encodeChar_decodes rfl t h

theorem utf8_decode_ff (l : List Nat) : utf8_decode (255 :: l) = none := by
  rw [utf8_decode.eq_def]
  norm_num

/-- C4 (counterexample): the round-trip fails for cp1252 — the euro sign
encodes to the byte `0x80`, which latin-1 (earlier in the chain) decodes
to `U+0080` — and even for utf-8 when the text contains a carriage
return, which text-mode reading translates to a line feed. -/
theorem C4_counterexample :
    (cp1252_encode [0x20AC] = some [0x80] ∧
     read_file_with_fallback defaultEncodings (some [0x80]) = some [0x80] ∧
     ([0x80] : List Nat) ≠ [0x20AC]) ∧
    (utf8_encode [13] = some [13] ∧
     read_file_with_fallback defaultEncodings (some [13]) = some [10] ∧
     ([10] : List Nat) ≠ [13]) := by decide

/-- C4 (amended): for utf-8 and utf-16, for every text of Unicode scalar
values containing no carriage return, writing the encoded bytes and
reading them back through the Multi-Encoding Reader returns exactly the
original text.  The corresponding statement fails for latin-1 and cp1252
(an earlier encoding in the chain can claim the bytes; cp1252 is never
reached), and carriage returns are rewritten by text-mode newline
translation — see the counterexample. -/
theorem C4_amended (t : List Nat) (h : validText t) (hcr : 13 ∉ t) :
    (∃ bs, utf8_encode t = some bs ∧
      read_file_with_fallback defaultEncodings (some bs) = some t) ∧
    (∃ bs, utf16_encode t = some bs ∧
      read_file_with_fallback defaultEncodings (some bs) = some t) := by
  constructor
  · obtain ⟨bs, e1, e2⟩ := utf8_roundtrip t h
    refine ⟨bs, e1, ?_⟩
    simp only [read_file_with_fallback, defaultEncodings, tryEncodings, decodeWith]
    rw [e2]
    show some (normalizeNewlines t) = some t
    rw [normalizeNewlines_eq_self t hcr]
  · obtain ⟨body, e1, e2⟩ := utf16_roundtrip t h
    refine ⟨255 :: 254 :: body, ?_, ?_⟩
    · rw [utf16_encode, e1]
      rfl
    · simp only [read_file_with_fallback, defaultEncodings, tryEncodings, decodeWith]
      rw [utf8_decode_ff]
      have h16 : utf16_decode (255 :: 254 :: body) = some t := by
        rw [utf16_decode]
        exact e2
      rw [h16]
      show some (normalizeNewlines t) = some t
      rw [normalizeNewlines_eq_self t hcr]

/-- C4 (witness): the amended round-trip at the two-character text
`hi` (code points 104, 105). -/
theorem C4_amended_witness :
    validText [104, 105] ∧ (13 : Nat) ∉ ([104, 105] : List Nat) ∧
    ((∃ bs, utf8_encode [104, 105] = some bs ∧
       read_file_with_fallback defaultEncodings (some bs) = some [104, 105]) ∧
     (∃ bs, utf16_encode [104, 105] = some bs ∧
       read_file_with_fallback defaultEncodings (some bs) = some [104, 105])) :=
  ⟨by decide, by decide, C4_amended [104, 105] (by decide) (by decide)⟩

end Walker
